import Mathlib

/-!
Verification of the `webapp-btc-wallet` repository: a shallow embedding of
its address ledger, simulated send flow, server API handlers, and the
transaction-builder algorithm specified for the send flow, together with
theorems settling the specification's claims about them.

Amounts are in satoshis (naturals) where the code works in satoshis, and
in rationals where the code works in BTC via JavaScript numbers.
Asynchronous collaborator calls (device derivation/signing, explorer
fetches, broadcast) are passed in as explicit function parameters, and the
network/device traffic a flow would issue is returned as an explicit call
trace where a claim is about it.
-/

namespace BtcWallet

/-! ## Data model -/

/-- A spendable value at a previous transaction output, tagged with the
owning wallet address and its derivation index (spec section 3; the
server's /api/utxos endpoint ships `txid`, `vout`, `value`, `address`,
`addressIndex`). -/
structure UnspentOutput where
  transactionId : String
  outputIndex : Nat
  valueSatoshis : Nat
  ownerAddress : String
  ownerAddressIndex : Nat
deriving Repr, DecidableEq

/-- Total input value (satoshis) of a list of UTXOs. -/
def sumVal (l : List UnspentOutput) : Nat :=
  (l.map UnspentOutput.valueSatoshis).sum

/-! ## Stable descending sort

Modelled from the spec: "Sort UTXOs by value descending (deterministic
tie-break: stable sort, original fetch order preserved for equal values)".
The repository ships no client-side coin-selection code (its `sendBitcoin`
is a simulation), so the sort is reconstructed here with insertion sort
under the value-descending relation, which is stable. -/

/-- The value-descending comparison used to sort UTXO candidates. -/
def utxoGE (a b : UnspentOutput) : Prop := b.valueSatoshis ≤ a.valueSatoshis

instance : DecidableRel utxoGE := fun _ _ => Nat.decLe _ _

instance : IsTotal UnspentOutput utxoGE :=
  ⟨fun a b => (Nat.le_total b.valueSatoshis a.valueSatoshis)⟩

instance : IsTrans UnspentOutput utxoGE :=
  ⟨fun _ _ _ hab hbc => Nat.le_trans hbc hab⟩

/-- Modelled from the spec: stable value-descending sort of the fetched
UTXO set (step 2 of the transaction-builder algorithm). -/
def sortDesc (l : List UnspentOutput) : List UnspentOutput :=
  List.insertionSort utxoGE l

/-! ## Fee model and greedy selection

Modelled from the spec: the per-transaction size estimate is
`overhead(10) + inputs.count × 68 + outputs.count × 31`, the fee is
`feeRate × size`, and selection accumulates sorted UTXOs one at a time,
stopping once `totalInput >= targetAmount + estimatedFee` with the output
count presumed to be 2 (recipient + change) during selection. -/

/-- Size estimate in vbytes for a transaction shape. -/
def estimatedSize (nInputs nOutputs : Nat) : Nat :=
  10 + nInputs * 68 + nOutputs * 31

/-- Fee in satoshis for a transaction shape at a given fee rate. -/
def feeFor (feeRate nInputs nOutputs : Nat) : Nat :=
  feeRate * estimatedSize nInputs nOutputs

/-- Modelled from the spec: the greedy accumulation loop (step 3).  Walks
the sorted list carrying the count `k` and value total of the UTXOs taken
so far, and returns the count at which the stop condition
`total >= target + fee(k, 2 outputs)` first holds, or `none` when the
UTXOs are exhausted first. -/
def selectCount (feeRate target : Nat) : List UnspentOutput → Nat → Nat → Option Nat
  | [], k, total =>
      if target + feeFor feeRate k 2 ≤ total then some k else none
  | u :: rest, k, total =>
      if target + feeFor feeRate k 2 ≤ total then some k
      else selectCount feeRate target rest (k + 1) (total + u.valueSatoshis)

/-- The stop condition of the greedy loop, as a predicate on a prefix
length of the sorted list. -/
def covers (feeRate target : Nat) (sorted : List UnspentOutput) (k : Nat) : Prop :=
  target + feeFor feeRate k 2 ≤ sumVal (sorted.take k)

instance (feeRate target : Nat) (sorted : List UnspentOutput) (k : Nat) :
    Decidable (covers feeRate target sorted k) := Nat.decLe _ _

/-! ## The transaction builder

Modelled from the spec: the full draft-construction algorithm (section
4.2, steps 1-7) is absent from the repository's sources — the shipped
`sendBitcoin` is a simulation and only the server-side collaborator
endpoints (/api/utxos, /api/tx/hex, /api/broadcast) exist — so it is
reconstructed here from the spec's words: greedy largest-first selection,
dust-threshold change decision with the excess otherwise folded into the
fee, change paid to the first known wallet address, and `NoFundsError` /
`InsufficientFundsError` failures.  The maximum-sendable diagnostic uses
the fee at full input count with a single output, per the spec's worked
scenario. -/

/-- Dust threshold in satoshis. -/
def dustThreshold : Nat := 546

inductive BuildError where
  | NoFundsError
  | InsufficientFundsError (maxSendable : Int)
  | DeviceError
  | UserRejectedError
  | BroadcastError (msg : String)
deriving Repr, DecidableEq

structure TransactionDraft where
  inputs : List UnspentOutput
  recipientAddress : String
  recipientValueSatoshis : Nat
  changeAddress : Option String
  changeValueSatoshis : Option Nat
  feeSatoshis : Nat
deriving Repr, DecidableEq

/-- Modelled from the spec: assemble a `TransactionDraft` from the fetched
UTXO set, the ledger's known wallet addresses, the target amount,
recipient and fee rate (spec section 4.2, steps 1-7). -/
def buildDraft (utxos : List UnspentOutput) (walletAddresses : List String)
    (target : Nat) (recipient : String) (feeRate : Nat) :
    Except BuildError TransactionDraft :=
  if utxos.isEmpty then .error .NoFundsError
  else
    let sorted := sortDesc utxos
    match selectCount feeRate target sorted 0 0 with
    | none =>
        .error (.InsufficientFundsError
          ((sumVal utxos : Int) - (feeFor feeRate utxos.length 1 : Int)))
    | some k =>
        let sel := sorted.take k
        let total := sumVal sel
        let fee2 := feeFor feeRate k 2
        let excess := total - (target + fee2)
        if dustThreshold < excess then
          .ok { inputs := sel
                recipientAddress := recipient
                recipientValueSatoshis := target
                changeAddress := walletAddresses.head?
                changeValueSatoshis := some excess
                feeSatoshis := fee2 }
        else
          .ok { inputs := sel
                recipientAddress := recipient
                recipientValueSatoshis := target
                changeAddress := none
                changeValueSatoshis := none
                feeSatoshis := total - target }

/-! ## The signing and broadcast pipeline

Modelled from the spec: steps 8-12 of the send flow (raw-transaction
fetches for the selected inputs, the blocking device-signing call, and
the broadcast), which are likewise absent from the sources.  The
collaborators are explicit function parameters and the issued external
calls are returned as a trace. -/

inductive SignOutcome where
  | approved (signedTx : String)
  | rejected
  | deviceFailure
deriving Repr, DecidableEq

inductive ExternalCall where
  | utxoApi
  | rawTxApi (transactionId : String)
  | signRequest
  | broadcastApi (rawTx : String)
deriving Repr, DecidableEq

/-- Modelled from the spec: the send pipeline around `buildDraft` — fetch
raw transactions for each selected input, submit the draft for on-device
signing, finalize and broadcast.  Device rejection maps to
`UserRejectedError`, device transport failure to `DeviceError`, broadcast
refusal to `BroadcastError`. -/
def sendPipeline (utxos : List UnspentOutput) (walletAddresses : List String)
    (target : Nat) (recipient : String) (feeRate : Nat)
    (signer : TransactionDraft → SignOutcome)
    (broadcaster : String → Except String String) :
    Except BuildError String × List ExternalCall :=
  match buildDraft utxos walletAddresses target recipient feeRate with
  | .error e => (.error e, [.utxoApi])
  | .ok draft =>
      let calls := ExternalCall.utxoApi ::
        (draft.inputs.map (fun u => ExternalCall.rawTxApi u.transactionId) ++
          [ExternalCall.signRequest])
      match signer draft with
      | .rejected => (.error .UserRejectedError, calls)
      | .deviceFailure => (.error .DeviceError, calls)
      | .approved signedTx =>
          match broadcaster signedTx with
          | .error msg =>
              (.error (.BroadcastError msg), calls ++ [.broadcastApi signedTx])
          | .ok txid => (.ok txid, calls ++ [.broadcastApi signedTx])

/-! ## Address ledger (ledger-context.tsx)

The device's `getWalletAddress` calls are embedded as a function from the
derivation index to `Except`: `.error` models a thrown device error. -/

/-- Sequential derivation of `n` addresses starting at index `start`,
stopping at the first device failure — the shared loop of `connect`
(lines 111-127) and `generateMoreAddresses` (lines 398-436). -/
def deriveRangeE (device : Nat → Except String String) : Nat → Nat → Except String (List String)
  | _, 0 => .ok []
  | start, n + 1 =>
      match device start with
      | .error e => .error e
      | .ok a =>
          match deriveRangeE device (start + 1) n with
          | .error e => .error e
          | .ok rest => .ok (a :: rest)

/-- Embedding of the initial derivation in `connect`
(ledger-context.tsx lines 111-127): five addresses at indices 0..4. -/
def connectDeriveAddresses (device : Nat → Except String String) :
    Except String (List String) :=
  deriveRangeE device 0 5

/-- Embedding of `generateMoreAddresses` (ledger-context.tsx lines
398-436): derive five addresses starting at `addresses.length` into a
local batch and append the batch on success; any device failure is
rethrown before `setAddresses` runs. -/
def generateMoreAddresses (device : Nat → Except String String)
    (addresses : List String) : Except String (List String) :=
  match deriveRangeE device addresses.length 5 with
  | .error e => .error e
  | .ok batch => .ok (addresses ++ batch)

/-- The address list held in React state after a `generateMoreAddresses`
call: `setAddresses` runs only after all five derivations succeed, so on
a thrown error the list is untouched. -/
def addressesAfterGenerate (device : Nat → Except String String)
    (addresses : List String) : List String :=
  match generateMoreAddresses device addresses with
  | .ok l => l
  | .error _ => addresses

/-- The outcome of a balance refresh that the receive-address claims are
about: the address list and the selected receive address afterwards. -/
structure RefreshResult where
  addresses : List String
  receiveAddress : String
  receiveAddressIndex : Nat
deriving Repr, DecidableEq

/-- The five-address batch `generateMoreAddressesInternal` derives
(infallible device view, used where the claims concern the success
path). -/
def deriveBatch (device : Nat → String) (start : Nat) : List String :=
  (List.range 5).map (fun i => device (start + i))

/-- Embedding of `refreshBalance`'s receive-address selection
(ledger-context.tsx lines 288-302) together with
`generateMoreAddressesInternal` (lines 325-358).  `hasTx a` states the
explorer reported at least one transaction for `a` (which marks it used);
`canGenerate` models `appClient && masterFingerprint && xpub`;
`oldReceive` is the `receiveAddress` state the closures captured.  When
every address is used, the code picks `addresses.length - 1`, launches
the internal generation (which appends five addresses), and the
internal function resets the receive address to the first new one only
when the captured `receiveAddress` is the empty string. -/
def refreshReceive (addresses : List String) (hasTx : String → Bool)
    (canGenerate : Bool) (device : Nat → String) (oldReceive : String) :
    RefreshResult :=
  match addresses.findIdx? (fun a => ! hasTx a) with
  | some i =>
      { addresses := addresses
        receiveAddress := addresses.getD i ""
        receiveAddressIndex := i }
  | none =>
      if canGenerate then
        let batch := deriveBatch device addresses.length
        if oldReceive = "" then
          { addresses := addresses ++ batch
            receiveAddress := batch.getD 0 ""
            receiveAddressIndex := addresses.length }
        else
          { addresses := addresses ++ batch
            receiveAddress := addresses.getD (addresses.length - 1) ""
            receiveAddressIndex := addresses.length - 1 }
      else
        { addresses := addresses
          receiveAddress := addresses.getD (addresses.length - 1) ""
          receiveAddressIndex := addresses.length - 1 }

/-! ## The shipped (simulated) sendBitcoin -/

inductive LedgerStatus where
  | disconnected
  | connecting
  | connected
  | error
deriving Repr, DecidableEq

inductive TxKind where
  | sent
  | received
deriving Repr, DecidableEq

inductive TxState where
  | confirmed
  | pending
deriving Repr, DecidableEq

/-- The client-side `Transaction` record of ledger-context.tsx (the
source's `type` and `status` string unions become inductives; the BTC
amount, a JavaScript number, becomes a rational; `date` is the epoch
timestamp). -/
structure UiTransaction where
  id : String
  type : TxKind
  amount : ℚ
  date : Nat
  address : String
  status : TxState
deriving Repr, DecidableEq

/-- The React state `sendBitcoin` reads and writes: connection status,
whether a transport object is held, the BTC balance and the transaction
list. -/
structure LedgerState where
  status : LedgerStatus
  hasTransport : Bool
  btcBalance : ℚ
  transactions : List UiTransaction
deriving Repr, DecidableEq

/-- The observable effects `sendBitcoin` performs besides its state
update; the network/device effect constructors exist so that their
absence from the trace is a provable statement. -/
inductive SendEffect where
  | toastShown (title : String)
  | waitMs (ms : Nat)
  | utxoApiFetch
  | deviceSignRequest
  | broadcastApiRequest
deriving Repr, DecidableEq

/-- Embedding of the shipped `sendBitcoin` (ledger-context.tsx lines
217-239): guard on transport and status, guard `amount > btcBalance`,
toast, 3000 ms wait, decrement the balance, prepend one pending sent
transaction, and return a simulated hash.  `now` stands for `Date.now()`
and `rand` for the random suffix `Math.random().toString(36).substring(7)`. -/
def sendBitcoin (s : LedgerState) (amount : ℚ) (toAddress : String) (now : Nat)
    (rand : String) : Except String (LedgerState × String × List SendEffect) :=
  if ¬ s.hasTransport ∨ s.status ≠ .connected then .error "Device not connected"
  else if s.btcBalance < amount then .error "Insufficient funds"
  else
    .ok ({ s with
            btcBalance := s.btcBalance - amount
            transactions :=
              { id := "tx-" ++ toString now
                type := .sent
                amount := amount
                date := now
                address := toAddress
                status := .pending } :: s.transactions },
         "tx_hash_simulated_" ++ rand,
         [.toastShown "Confirm on Device", .waitMs 3000])

/-! ## Server: GET /api/address/:address (part_006 lines 69-139) -/

/-- The Blockstream address statistics the endpoint reads. -/
structure AddressChainData where
  chainFundedSum : Nat
  chainSpentSum : Nat
  mempoolFundedSum : Nat
  mempoolSpentSum : Nat
deriving Repr, DecidableEq

structure ExplorerVout where
  scriptpubkeyAddress : Option String
  value : Nat
deriving Repr, DecidableEq

structure ExplorerVin where
  prevoutAddress : Option String
deriving Repr, DecidableEq

structure ExplorerTxStatus where
  confirmed : Bool
  blockTime : Option Nat
deriving Repr, DecidableEq

structure ExplorerTx where
  txid : String
  vin : List ExplorerVin
  vout : List ExplorerVout
  status : ExplorerTxStatus
deriving Repr, DecidableEq

/-- Result of an upstream fetch: a parsed body on HTTP success, `notOk`
for a non-2xx response, `threw` for a network exception. -/
inductive FetchOutcome (α : Type) where
  | ok (value : α)
  | notOk
  | threw
deriving Repr, DecidableEq

/-- A transaction row in the endpoint's JSON response. -/
structure ApiTransaction where
  id : String
  type : String
  amount : ℚ
  date : Nat
  address : String
  status : String
deriving Repr, DecidableEq

/-- The endpoint's JSON response together with its HTTP status. -/
structure AddressApiResponse where
  httpStatus : Nat
  balance : ℚ
  transactions : List ApiTransaction
deriving Repr, DecidableEq

def satsPerBtc : ℚ := 100000000

/-- The `res.json(\x7bbalance: 0, transactions: []\x7d)` reply the
endpoint sends on upstream failure (HTTP status defaults to 200). -/
def emptyAddressResponse : AddressApiResponse :=
  { httpStatus := 200, balance := 0, transactions := [] }

/-- Embedding of the per-transaction view mapping in the endpoint
(part_006 lines 95-128): classify sent/received by whether any input
spends from the address, total the relevant outputs, fall back to `now`
for a missing (or zero, per JavaScript truthiness) block time, and pick
the counterparty address. -/
def mapExplorerTx (address : String) (now : Nat) (tx : ExplorerTx) :
    ApiTransaction :=
  let isSent := tx.vin.any (fun i => i.prevoutAddress == some address)
  let amountSats : Nat :=
    if isSent then
      ((tx.vout.filter (fun o => o.scriptpubkeyAddress != some address)).map
        ExplorerVout.value).sum
    else
      ((tx.vout.filter (fun o => o.scriptpubkeyAddress == some address)).map
        ExplorerVout.value).sum
  let txTime :=
    match tx.status.blockTime with
    | some t => if t = 0 then now else t
    | none => now
  { id := tx.txid
    type := if isSent then "sent" else "received"
    amount := (amountSats : ℚ) / satsPerBtc
    date := txTime
    address :=
      if isSent then
        (((tx.vout.find? (fun o => o.scriptpubkeyAddress != some address)).bind
            ExplorerVout.scriptpubkeyAddress).getD "Unknown")
      else
        ((tx.vin.head?.bind ExplorerVin.prevoutAddress).getD "Unknown")
    status := if tx.status.confirmed then "confirmed" else "pending" }

/-- Embedding of GET /api/address/:address (part_006 lines 69-139, same
shape in server/routes.ts lines 24-94): both upstream fetches run under
one try/catch, a thrown fetch or a non-OK address response yields the
empty 200 reply, a non-OK transactions response degrades to an empty
transaction list, and otherwise the balance is the funded-minus-spent sum
in BTC with the first ten transactions mapped. -/
def getAddressHandler (address : String)
    (addrRes : FetchOutcome AddressChainData)
    (txsRes : FetchOutcome (List ExplorerTx)) (now : Nat) :
    AddressApiResponse :=
  match addrRes, txsRes with
  | .threw, _ => emptyAddressResponse
  | _, .threw => emptyAddressResponse
  | .notOk, _ => emptyAddressResponse
  | .ok d, txs =>
      let txsData :=
        match txs with
        | .ok l => l
        | _ => []
      { httpStatus := 200
        balance :=
          ((((d.chainFundedSum : Int) - (d.chainSpentSum : Int)) +
            ((d.mempoolFundedSum : Int) - (d.mempoolSpentSum : Int)) : Int) : ℚ) /
            satsPerBtc
        transactions := (txsData.take 10).map (mapExplorerTx address now) }

/-! ## Basic lemmas -/

@[simp] theorem sumVal_nil : sumVal [] = 0 := rfl

@[simp] theorem sumVal_cons (u : UnspentOutput) (l : List UnspentOutput) :
    sumVal (u :: l) = u.valueSatoshis + sumVal l := rfl

theorem sortDesc_perm (l : List UnspentOutput) : List.Perm (sortDesc l) l :=
  List.perm_insertionSort utxoGE l

theorem sortDesc_sorted (l : List UnspentOutput) :
    (sortDesc l).Sorted utxoGE :=
  List.sorted_insertionSort utxoGE l

/-- Key stability step: ordered insertion does not change the subsequence
of elements carrying any fixed value. -/
theorem filter_orderedInsert_value (u : UnspentOutput) (v : Nat) :
    ∀ l : List UnspentOutput,
      (List.orderedInsert utxoGE u l).filter (fun x => x.valueSatoshis == v) =
        (u :: l).filter (fun x => x.valueSatoshis == v) := by
  intro l
  induction l with
  | nil => simp [List.orderedInsert]
  | cons b t ih =>
    by_cases h : utxoGE u b
    · simp [List.orderedInsert, if_pos h]
    · have hvb : u.valueSatoshis < b.valueSatoshis := Nat.lt_of_not_le h
      simp only [List.orderedInsert, if_neg h]
      by_cases hu : u.valueSatoshis = v
      · have hb : b.valueSatoshis ≠ v := by omega
        simp [List.filter_cons, ih, beq_iff_eq, hu, hb]
      · simp [List.filter_cons, ih, beq_iff_eq, hu]

/-- Stability of the sort: for every value `v`, the elements of value `v`
appear in the sorted list in exactly their original order. -/
theorem sortDesc_stable (l : List UnspentOutput) (v : Nat) :
    (sortDesc l).filter (fun x => x.valueSatoshis == v) =
      l.filter (fun x => x.valueSatoshis == v) := by
  induction l with
  | nil => rfl
  | cons u t ih =>
    show (List.orderedInsert utxoGE u (sortDesc t)).filter _ = _
    rw [filter_orderedInsert_value u v (sortDesc t)]
    simp only [List.filter]
    rw [ih]

/-- Soundness of the loop: a returned count is the first prefix length at
which the stop condition holds (stated relative to an arbitrary starting
point of the walk). -/
theorem selectCount_sound (feeRate target : Nat) :
    ∀ (L : List UnspentOutput) (k total m : Nat),
      selectCount feeRate target L k total = some m →
      ∃ i, i ≤ L.length ∧ m = k + i ∧
        target + feeFor feeRate (k + i) 2 ≤ total + sumVal (L.take i) ∧
        ∀ j < i, total + sumVal (L.take j) < target + feeFor feeRate (k + j) 2 := by
  intro L
  induction L with
  | nil =>
    intro k total m h
    simp only [selectCount] at h
    split at h
    · rename_i hc
      cases h
      exact ⟨0, by simp, by simp, by simpa using hc, by omega⟩
    · cases h
  | cons u rest ih =>
    intro k total m h
    simp only [selectCount] at h
    split at h
    · rename_i hc
      cases h
      exact ⟨0, by simp, by simp, by simpa using hc, by omega⟩
    · rename_i hc
      obtain ⟨i, hlen, hm, hcov, hmin⟩ := ih (k + 1) (total + u.valueSatoshis) m h
      refine ⟨i + 1, by simpa using Nat.succ_le_succ hlen, by omega, ?_, ?_⟩
      · simpa [Nat.add_assoc, Nat.add_comm, Nat.add_left_comm] using
          (show target + feeFor feeRate (k + 1 + i) 2 ≤
            total + u.valueSatoshis + sumVal (rest.take i) from hcov).trans_eq (by
              simp [sumVal, Nat.add_assoc])
      · intro j hj
        cases j with
        | zero => simpa using Nat.lt_of_not_le hc
        | succ j' =>
          have := hmin j' (by omega)
          simp only [List.take_succ_cons, sumVal_cons]
          have hidx : k + (j' + 1) = k + 1 + j' := by omega
          rw [hidx]
          omega

/-- Completeness of the loop: if some prefix satisfies the stop
condition, the loop returns a count. -/
theorem selectCount_complete (feeRate target : Nat) :
    ∀ (L : List UnspentOutput) (k total : Nat),
      (∃ i, i ≤ L.length ∧
        target + feeFor feeRate (k + i) 2 ≤ total + sumVal (L.take i)) →
      (selectCount feeRate target L k total).isSome := by
  intro L
  induction L with
  | nil =>
    intro k total ⟨i, hlen, hcov⟩
    have hi : i = 0 := Nat.le_zero.mp (by simpa using hlen)
    subst hi
    simp only [selectCount]
    rw [if_pos (by simpa using hcov)]
    rfl
  | cons u rest ih =>
    intro k total ⟨i, hlen, hcov⟩
    simp only [selectCount]
    split
    · rfl
    · rename_i hc
      apply ih (k + 1) (total + u.valueSatoshis)
      cases i with
      | zero => exact absurd (by simpa using hcov) hc
      | succ i' =>
        refine ⟨i', by simpa using Nat.le_of_succ_le_succ hlen, ?_⟩
        have hstep : target + feeFor feeRate (k + (i' + 1)) 2 ≤
            total + (u.valueSatoshis + sumVal (rest.take i')) := by
          simpa [List.take_succ_cons, sumVal_cons, Nat.add_assoc] using hcov
        have hidx : k + (i' + 1) = k + 1 + i' := by omega
        rw [hidx] at hstep
        omega

/-- The loop started at the beginning of the sorted list returns exactly
the least prefix length satisfying the stop condition. -/
theorem selectCount_spec (feeRate target : Nat) (sorted : List UnspentOutput) (k : Nat)
    (h : selectCount feeRate target sorted 0 0 = some k) :
    k ≤ sorted.length ∧ covers feeRate target sorted k ∧
      ∀ j < k, ¬ covers feeRate target sorted j := by
  obtain ⟨i, hlen, hm, hcov, hmin⟩ := selectCount_sound feeRate target sorted 0 0 k h
  simp only [Nat.zero_add] at hm hcov hmin
  have hi : k = i := hm
  subst hi
  refine ⟨hlen, by simpa [covers] using hcov, ?_⟩
  intro j hj
  have := hmin j hj
  simp only [covers]
  omega

/-- The loop succeeds whenever some prefix of the sorted list satisfies
the stop condition. -/
theorem selectCount_isSome (feeRate target : Nat) (sorted : List UnspentOutput)
    (h : ∃ i, i ≤ sorted.length ∧ covers feeRate target sorted i) :
    ∃ k, selectCount feeRate target sorted 0 0 = some k := by
  obtain ⟨i, hlen, hcov⟩ := h
  have := selectCount_complete feeRate target sorted 0 0
    ⟨i, hlen, by simpa [covers] using hcov⟩
  cases hk : selectCount feeRate target sorted 0 0 with
  | none => rw [hk] at this; cases this
  | some k => exact ⟨k, rfl⟩

/-- Complete characterisation of a successfully built draft, used by the
claim theorems below. -/
theorem buildDraft_ok_elim {utxos : List UnspentOutput} {w : List String}
    {target : Nat} {recipient : String} {feeRate : Nat} {d : TransactionDraft}
    (h : buildDraft utxos w target recipient feeRate = .ok d) :
    ∃ k, selectCount feeRate target (sortDesc utxos) 0 0 = some k ∧
      k ≤ (sortDesc utxos).length ∧
      d.inputs = (sortDesc utxos).take k ∧
      d.recipientValueSatoshis = target ∧
      d.recipientAddress = recipient ∧
      covers feeRate target (sortDesc utxos) k ∧
      (∀ j < k, ¬ covers feeRate target (sortDesc utxos) j) ∧
      ((dustThreshold < sumVal d.inputs - (target + feeFor feeRate k 2) ∧
          d.changeValueSatoshis = some (sumVal d.inputs - (target + feeFor feeRate k 2)) ∧
          d.changeAddress = w.head? ∧
          d.feeSatoshis = feeFor feeRate k 2) ∨
        (sumVal d.inputs - (target + feeFor feeRate k 2) ≤ dustThreshold ∧
          d.changeValueSatoshis = none ∧
          d.changeAddress = none ∧
          d.feeSatoshis = sumVal d.inputs - target)) := by
  simp only [buildDraft] at h
  split at h
  · cases h
  · split at h
    · cases h
    · rename_i k hk
      obtain ⟨hlen, hcov, hmin⟩ := selectCount_spec feeRate target (sortDesc utxos) k hk
      refine ⟨k, hk, hlen, ?_⟩
      split at h
      · rename_i hdust
        cases h
        exact ⟨rfl, rfl, rfl, hcov, hmin, Or.inl ⟨hdust, rfl, rfl, rfl⟩⟩
      · rename_i hdust
        cases h
        exact ⟨rfl, rfl, rfl, hcov, hmin,
          Or.inr ⟨Nat.le_of_not_lt hdust, rfl, rfl, rfl⟩⟩

/-! ## Claim C1: value conservation of produced drafts -/

/-- C1: for every `TransactionDraft` produced by the transaction builder,
the sum of the selected input values equals
`recipientValueSatoshis + feeSatoshis + (changeValueSatoshis or 0)`
exactly, and whenever a change value is present it exceeds 546
satoshis. -/
theorem C1_draft_value_conservation (utxos : List UnspentOutput)
    (w : List String) (target : Nat) (recipient : String) (feeRate : Nat)
    (d : TransactionDraft)
    (h : buildDraft utxos w target recipient feeRate = .ok d) :
    sumVal d.inputs =
      d.recipientValueSatoshis + d.feeSatoshis + d.changeValueSatoshis.getD 0 ∧
    ∀ c, d.changeValueSatoshis = some c → 546 < c := by
  obtain ⟨k, _, _, hinp, hrecv, _, hcov, _, hbr⟩ := buildDraft_ok_elim h
  have hS : target + feeFor feeRate k 2 ≤ sumVal d.inputs := by
    rw [hinp]; exact hcov
  rcases hbr with ⟨hdust, hch, _, hfee⟩ | ⟨hdust, hch, _, hfee⟩
  · constructor
    · rw [hrecv, hfee, hch]
      simp only [Option.getD_some]
      omega
    · intro c hc
      rw [hch] at hc
      obtain rfl := Option.some.inj hc
      exact hdust
  · constructor
    · rw [hrecv, hfee, hch]
      simp only [Option.getD_none]
      omega
    · intro c hc
      rw [hch] at hc
      cases hc

/-- Witness for C1 at the spec's worked scenario: UTXOs of 100000 and
50000 satoshis, target 120000, fee rate 10. -/
theorem C1_draft_value_conservation_witness :
    (buildDraft [⟨"t1", 0, 100000, "a0", 0⟩, ⟨"t2", 1, 50000, "a1", 1⟩]
        ["w0"] 120000 "rcpt" 10 =
      .ok ⟨[⟨"t1", 0, 100000, "a0", 0⟩, ⟨"t2", 1, 50000, "a1", 1⟩],
        "rcpt", 120000, some "w0", some 27920, 2080⟩) ∧
    (sumVal ([⟨"t1", 0, 100000, "a0", 0⟩, ⟨"t2", 1, 50000, "a1", 1⟩] :
        List UnspentOutput) =
      120000 + 2080 + (some 27920).getD 0 ∧
      ∀ c, (some 27920 : Option Nat) = some c → 546 < c) := by
  constructor
  · rfl
  · have := C1_draft_value_conservation
      [⟨"t1", 0, 100000, "a0", 0⟩, ⟨"t2", 1, 50000, "a1", 1⟩]
      ["w0"] 120000 "rcpt" 10
      ⟨[⟨"t1", 0, 100000, "a0", 0⟩, ⟨"t2", 1, 50000, "a1", 1⟩],
        "rcpt", 120000, some "w0", some 27920, 2080⟩ rfl
    exact this

/-! ## Claim C2: greedy selection over the stable descending sort -/

/-- C2: the builder sorts the UTXOs by value descending (stably: equal
values keep their original order), accumulates them in that order with
the size estimate `10 + inputs × 68 + outputs × 31` at 2 outputs, and the
selected inputs are the fewest-by-greedy-order prefix whose total reaches
`target + estimatedFee` (stated for a UTXO set on which such a prefix
exists; otherwise selection fails, see C4). -/
theorem C2_greedy_selection (utxos : List UnspentOutput) (w : List String)
    (target : Nat) (recipient : String) (feeRate : Nat)
    (hne : utxos ≠ [])
    (hex : ∃ i, i ≤ (sortDesc utxos).length ∧ covers feeRate target (sortDesc utxos) i) :
    List.Perm (sortDesc utxos) utxos ∧
    (sortDesc utxos).Sorted utxoGE ∧
    (∀ v, (sortDesc utxos).filter (fun x => x.valueSatoshis == v) =
      utxos.filter (fun x => x.valueSatoshis == v)) ∧
    ∃ k d, buildDraft utxos w target recipient feeRate = .ok d ∧
      d.inputs = (sortDesc utxos).take k ∧
      covers feeRate target (sortDesc utxos) k ∧
      ∀ j < k, ¬ covers feeRate target (sortDesc utxos) j := by
  refine ⟨sortDesc_perm utxos, sortDesc_sorted utxos,
    fun v => sortDesc_stable utxos v, ?_⟩
  obtain ⟨k, hk⟩ := selectCount_isSome feeRate target (sortDesc utxos) hex
  obtain ⟨hlen, hcov, hmin⟩ := selectCount_spec feeRate target (sortDesc utxos) k hk
  have hE : utxos.isEmpty = false := by
    cases utxos with
    | nil => exact absurd rfl hne
    | cons a l => rfl
  refine ⟨k, ?_⟩
  simp only [buildDraft, hE, Bool.false_eq_true, if_false, hk]
  by_cases hdust :
      dustThreshold < sumVal ((sortDesc utxos).take k) - (target + feeFor feeRate k 2)
  · exact ⟨_, by rw [if_pos hdust], rfl, hcov, hmin⟩
  · exact ⟨_, by rw [if_neg hdust], rfl, hcov, hmin⟩

/-- Witness for C2 at the spec's worked scenario: both UTXOs are needed
(the 100000 one is insufficient alone once the fee is included). -/
theorem C2_greedy_selection_witness :
    ([⟨"t1", 0, 100000, "a0", 0⟩, ⟨"t2", 1, 50000, "a1", 1⟩] : List UnspentOutput) ≠ [] ∧
    (∃ i, i ≤ (sortDesc [⟨"t1", 0, 100000, "a0", 0⟩, ⟨"t2", 1, 50000, "a1", 1⟩]).length ∧
      covers 10 120000 (sortDesc [⟨"t1", 0, 100000, "a0", 0⟩, ⟨"t2", 1, 50000, "a1", 1⟩]) i) ∧
    (List.Perm (sortDesc [⟨"t1", 0, 100000, "a0", 0⟩, ⟨"t2", 1, 50000, "a1", 1⟩])
        [⟨"t1", 0, 100000, "a0", 0⟩, ⟨"t2", 1, 50000, "a1", 1⟩] ∧
      (sortDesc [⟨"t1", 0, 100000, "a0", 0⟩, ⟨"t2", 1, 50000, "a1", 1⟩]).Sorted utxoGE ∧
      (∀ v, (sortDesc [⟨"t1", 0, 100000, "a0", 0⟩, ⟨"t2", 1, 50000, "a1", 1⟩]).filter
          (fun x => x.valueSatoshis == v) =
        ([⟨"t1", 0, 100000, "a0", 0⟩, ⟨"t2", 1, 50000, "a1", 1⟩] :
          List UnspentOutput).filter (fun x => x.valueSatoshis == v)) ∧
      ∃ k d, buildDraft [⟨"t1", 0, 100000, "a0", 0⟩, ⟨"t2", 1, 50000, "a1", 1⟩]
          ["w0"] 120000 "rcpt" 10 = .ok d ∧
        d.inputs = (sortDesc [⟨"t1", 0, 100000, "a0", 0⟩, ⟨"t2", 1, 50000, "a1", 1⟩]).take k ∧
        covers 10 120000 (sortDesc [⟨"t1", 0, 100000, "a0", 0⟩, ⟨"t2", 1, 50000, "a1", 1⟩]) k ∧
        ∀ j < k, ¬ covers 10 120000
          (sortDesc [⟨"t1", 0, 100000, "a0", 0⟩, ⟨"t2", 1, 50000, "a1", 1⟩]) j) := by
  refine ⟨by simp, ⟨2, by decide, by decide⟩, ?_⟩
  exact C2_greedy_selection [⟨"t1", 0, 100000, "a0", 0⟩, ⟨"t2", 1, 50000, "a1", 1⟩]
    ["w0"] 120000 "rcpt" 10 (by simp) ⟨2, by decide, by decide⟩

/-! ## Claim C3: the change decision -/

/-- Counterexample to C3 as stated: with a single 1140-satoshi UTXO,
target 1000 and fee rate 1, the selection stops with an excess of exactly
0 <= 546, the draft has no change output, and its fee (140) equals — is
not strictly greater than — the with-change fee `feeFor 1 1 2 = 140`. -/
theorem C3_change_decision_counterexample :
    buildDraft [⟨"t1", 0, 1140, "a0", 0⟩] ["w0"] 1000 "rcpt" 1 =
      .ok ⟨[⟨"t1", 0, 1140, "a0", 0⟩], "rcpt", 1000, none, none, 140⟩ ∧
    feeFor 1 1 2 = 140 ∧
    ¬ (140 > feeFor 1 1 2) :=
  ⟨rfl, rfl, by decide⟩

/-- C3 as amended: a change output is emitted iff the total input value
exceeds `target + fee(2 outputs) + 546`; otherwise the draft has no
change output, the whole excess is absorbed into the fee
(`fee = totalInput - target`), and the resulting fee is greater than or
equal to the with-change fee — strictly greater exactly when the excess
is positive. -/
theorem C3_change_decision_amended (utxos : List UnspentOutput)
    (w : List String) (target : Nat) (recipient : String) (feeRate : Nat)
    (d : TransactionDraft)
    (h : buildDraft utxos w target recipient feeRate = .ok d) :
    (d.changeValueSatoshis.isSome ↔
      target + feeFor feeRate d.inputs.length 2 + 546 < sumVal d.inputs) ∧
    (d.changeValueSatoshis = none →
      d.feeSatoshis = sumVal d.inputs - target ∧
      feeFor feeRate d.inputs.length 2 ≤ d.feeSatoshis ∧
      (target + feeFor feeRate d.inputs.length 2 < sumVal d.inputs →
        feeFor feeRate d.inputs.length 2 < d.feeSatoshis)) := by
  obtain ⟨k, _, hlen, hinp, hrecv, _, hcov, _, hbr⟩ := buildDraft_ok_elim h
  have hklen : d.inputs.length = k := by
    rw [hinp, List.length_take]
    exact Nat.min_eq_left hlen
  have hS : target + feeFor feeRate k 2 ≤ sumVal d.inputs := by
    rw [hinp]; exact hcov
  rw [hklen]
  have h546 : dustThreshold = 546 := rfl
  rcases hbr with ⟨hdust, hch, _, hfee⟩ | ⟨hdust, hch, _, hfee⟩
  · constructor
    · rw [hch]
      simp only [Option.isSome_some, true_iff]
      omega
    · intro hno
      rw [hch] at hno
      cases hno
  · constructor
    · rw [hch]
      simp only [Option.isSome_none, Bool.false_eq_true, false_iff]
      omega
    · intro _
      refine ⟨hfee, ?_, ?_⟩
      · rw [hfee]; omega
      · intro hstrict
        rw [hfee]; omega

/-- Witness for the amended C3 at the boundary input (excess exactly 0):
no change is emitted and the fee equals the with-change fee. -/
theorem C3_change_decision_witness :
    (buildDraft [⟨"t1", 0, 1140, "a0", 0⟩] ["w0"] 1000 "rcpt" 1 =
      .ok ⟨[⟨"t1", 0, 1140, "a0", 0⟩], "rcpt", 1000, none, none, 140⟩) ∧
    (((none : Option Nat).isSome ↔ 1000 + feeFor 1 1 2 + 546 < 1140) ∧
      ((none : Option Nat) = none →
        140 = 1140 - 1000 ∧
        feeFor 1 1 2 ≤ 140 ∧
        (1000 + feeFor 1 1 2 < 1140 → feeFor 1 1 2 < 140))) :=
  ⟨rfl, C3_change_decision_amended [⟨"t1", 0, 1140, "a0", 0⟩] ["w0"] 1000 "rcpt" 1
    ⟨[⟨"t1", 0, 1140, "a0", 0⟩], "rcpt", 1000, none, none, 140⟩ rfl⟩

/-! ## Claim C4: the insufficient-funds failure -/

/-- Counterexample to C4 as stated: with UTXOs of 1000 and 1 satoshis,
target 860 and fee rate 1, the total available (1001) is below
`target + fee at full input count` under either output count
(1068 with two outputs, 1037 with one), yet the build succeeds — the
greedy loop stops at the single 1000-satoshi input, whose smaller input
count needs only a 140-satoshi fee. -/
theorem C4_insufficient_funds_counterexample :
    sumVal [⟨"t1", 0, 1000, "a0", 0⟩, ⟨"t2", 1, 1, "a0", 0⟩] <
      860 + feeFor 1 2 2 ∧
    sumVal [⟨"t1", 0, 1000, "a0", 0⟩, ⟨"t2", 1, 1, "a0", 0⟩] <
      860 + feeFor 1 2 1 ∧
    buildDraft [⟨"t1", 0, 1000, "a0", 0⟩, ⟨"t2", 1, 1, "a0", 0⟩]
        ["w0"] 860 "rcpt" 1 =
      .ok ⟨[⟨"t1", 0, 1000, "a0", 0⟩], "rcpt", 860, none, none, 140⟩ :=
  ⟨by decide, by decide, rfl⟩

/-- C4 as amended: the build fails exactly when the greedy loop exhausts
the UTXOs, that is, when no prefix of the sorted list reaches
`target + fee(count, 2 outputs)`; the failure is
`InsufficientFundsError` reporting the total available funds minus the
fee at full input count (one output, per the spec's worked scenario). -/
theorem C4_insufficient_funds_amended (utxos : List UnspentOutput)
    (w : List String) (target : Nat) (recipient : String) (feeRate : Nat)
    (hne : utxos ≠ []) :
    (selectCount feeRate target (sortDesc utxos) 0 0 = none ↔
      ∀ i, i ≤ (sortDesc utxos).length →
        ¬ covers feeRate target (sortDesc utxos) i) ∧
    (selectCount feeRate target (sortDesc utxos) 0 0 = none →
      buildDraft utxos w target recipient feeRate =
        .error (.InsufficientFundsError
          ((sumVal utxos : Int) - (feeFor feeRate utxos.length 1 : Int)))) := by
  have hE : utxos.isEmpty = false := by
    cases utxos with
    | nil => exact absurd rfl hne
    | cons a l => rfl
  constructor
  · constructor
    · intro hnone i hi hcov
      obtain ⟨k, hk⟩ :=
        selectCount_isSome feeRate target (sortDesc utxos) ⟨i, hi, hcov⟩
      rw [hnone] at hk
      cases hk
    · intro hall
      cases hk : selectCount feeRate target (sortDesc utxos) 0 0 with
      | none => rfl
      | some k =>
        obtain ⟨hlen, hcov, _⟩ :=
          selectCount_spec feeRate target (sortDesc utxos) k hk
        exact absurd hcov (hall k hlen)
  · intro hnone
    simp only [buildDraft, hE, Bool.false_eq_true, if_false, hnone]

/-- Witness for the amended C4 at the spec's worked scenario: a single
1000-satoshi UTXO cannot pay a 2000-satoshi target. -/
theorem C4_insufficient_funds_witness :
    ([⟨"t1", 0, 1000, "a0", 0⟩] : List UnspentOutput) ≠ [] ∧
    ((selectCount 1 2000 (sortDesc [⟨"t1", 0, 1000, "a0", 0⟩]) 0 0 = none ↔
      ∀ i, i ≤ (sortDesc [⟨"t1", 0, 1000, "a0", 0⟩]).length →
        ¬ covers 1 2000 (sortDesc [⟨"t1", 0, 1000, "a0", 0⟩]) i) ∧
    (selectCount 1 2000 (sortDesc [⟨"t1", 0, 1000, "a0", 0⟩]) 0 0 = none →
      buildDraft [⟨"t1", 0, 1000, "a0", 0⟩] ["w0"] 2000 "rcpt" 1 =
        .error (.InsufficientFundsError
          ((sumVal [⟨"t1", 0, 1000, "a0", 0⟩] : Int) -
            (feeFor 1 ([⟨"t1", 0, 1000, "a0", 0⟩] : List UnspentOutput).length 1 : Int))))) :=
  ⟨by simp, C4_insufficient_funds_amended [⟨"t1", 0, 1000, "a0", 0⟩]
    ["w0"] 2000 "rcpt" 1 (by simp)⟩

/-! ## Claim C5: user rejection of the signing call -/

/-- C5: when the device signing call is rejected by the user, the send
pipeline fails with `UserRejectedError` — a value distinct from the
generic `DeviceError` — no signed transaction is returned (the draft is
discarded with the error), and no broadcast request appears among the
external calls the pipeline issued. -/
theorem C5_user_rejection_no_broadcast (utxos : List UnspentOutput)
    (w : List String) (target : Nat) (recipient : String) (feeRate : Nat)
    (signer : TransactionDraft → SignOutcome)
    (broadcaster : String → Except String String) (d : TransactionDraft)
    (hok : buildDraft utxos w target recipient feeRate = .ok d)
    (hrej : signer d = .rejected) :
    (sendPipeline utxos w target recipient feeRate signer broadcaster).1 =
      .error .UserRejectedError ∧
    BuildError.UserRejectedError ≠ BuildError.DeviceError ∧
    ∀ raw, ExternalCall.broadcastApi raw ∉
      (sendPipeline utxos w target recipient feeRate signer broadcaster).2 := by
  have hpipe : sendPipeline utxos w target recipient feeRate signer broadcaster =
      (.error .UserRejectedError,
        ExternalCall.utxoApi ::
          (d.inputs.map (fun u => ExternalCall.rawTxApi u.transactionId) ++
            [ExternalCall.signRequest])) := by
    simp only [sendPipeline, hok, hrej]
  rw [hpipe]
  refine ⟨rfl, by simp, ?_⟩
  intro raw hmem
  simp only [List.mem_cons, List.mem_append, List.mem_map,
    List.mem_singleton, List.not_mem_nil, or_false] at hmem
  rcases hmem with h | ⟨⟨u, _, h⟩ | h⟩ <;> cases h

/-- Witness for C5: a rejected signing of a concrete single-input draft. -/
theorem C5_user_rejection_witness :
    ((sendPipeline [⟨"t1", 0, 100000, "a0", 0⟩] ["w0"] 50000 "rcpt" 1
        (fun _ => .rejected) (fun raw => .ok raw)).1 =
      .error .UserRejectedError) ∧
    BuildError.UserRejectedError ≠ BuildError.DeviceError ∧
    ∀ raw, ExternalCall.broadcastApi raw ∉
      (sendPipeline [⟨"t1", 0, 100000, "a0", 0⟩] ["w0"] 50000 "rcpt" 1
        (fun _ => .rejected) (fun raw => .ok raw)).2 :=
  C5_user_rejection_no_broadcast [⟨"t1", 0, 100000, "a0", 0⟩] ["w0"]
    50000 "rcpt" 1 (fun _ => .rejected) (fun raw => .ok raw)
    ⟨[⟨"t1", 0, 100000, "a0", 0⟩], "rcpt", 50000, some "w0", some 49860, 140⟩
    rfl rfl

/-! ## Claim C6: the next receive address -/

/-- Counterexample to C6 as stated: with a single derived address that is
used and a non-empty previous receive address, the refresh appends a new
batch of five but keeps the used address `addr0` as the receive
address — not the first address of the new batch (`new1`), and not an
address without observed transactions (there is none). -/
theorem C6_receive_address_counterexample :
    refreshReceive ["addr0"] (fun _ => true) true
        (fun n => "new" ++ toString n) "addr0" =
      { addresses := ["addr0", "new1", "new2", "new3", "new4", "new5"]
        receiveAddress := "addr0"
        receiveAddressIndex := 0 } ∧
    (fun _ => (true : Bool)) "addr0" = true ∧
    deriveBatch (fun n => "new" ++ toString n) 1 =
      ["new1", "new2", "new3", "new4", "new5"] ∧
    "addr0" ≠ "new1" :=
  ⟨rfl, rfl, rfl, by decide⟩

/-- C6 as amended: when at least one derived address has no observed
transaction, the refresh selects the one with the lowest derivation
index and leaves the address list unchanged; when every derived address
is used (and generation is possible), a batch of exactly five addresses
is appended, but the receive address is set to the last previously
derived address — the first address of the new batch takes over only in
the code path where the previously captured receive address was the
empty string. -/
theorem C6_receive_address_amended (addresses : List String)
    (hasTx : String → Bool) (canGenerate : Bool) (device : Nat → String)
    (oldReceive : String) :
    (∀ i, addresses.findIdx? (fun a => ! hasTx a) = some i →
      (refreshReceive addresses hasTx canGenerate device oldReceive).receiveAddress =
        addresses.getD i "" ∧
      (refreshReceive addresses hasTx canGenerate device oldReceive).receiveAddressIndex = i ∧
      (refreshReceive addresses hasTx canGenerate device oldReceive).addresses = addresses ∧
      i < addresses.length ∧
      hasTx (addresses.getD i "") = false ∧
      ∀ j, j < i → hasTx (addresses.getD j "") = true) ∧
    (addresses.findIdx? (fun a => ! hasTx a) = none →
      canGenerate = true →
      oldReceive ≠ "" →
      (∀ a ∈ addresses, hasTx a = true) ∧
      (refreshReceive addresses hasTx canGenerate device oldReceive).addresses =
        addresses ++ deriveBatch device addresses.length ∧
      (deriveBatch device addresses.length).length = 5 ∧
      (refreshReceive addresses hasTx canGenerate device oldReceive).receiveAddress =
        addresses.getD (addresses.length - 1) "") := by
  constructor
  · intro i hi
    have hfields : refreshReceive addresses hasTx canGenerate device oldReceive =
        { addresses := addresses
          receiveAddress := addresses.getD i ""
          receiveAddressIndex := i } := by
      simp only [refreshReceive, hi]
    rw [List.findIdx?_eq_some_iff_getElem] at hi
    obtain ⟨hlt, hp, hmin⟩ := hi
    refine ⟨by rw [hfields], by rw [hfields], by rw [hfields], hlt, ?_, ?_⟩
    · have hg : addresses.getD i "" = addresses[i] := by
        rw [List.getD_eq_getElem?_getD, List.getElem?_eq_getElem hlt]
        rfl
      rw [hg]
      simpa using hp
    · intro j hj
      have hjlt : j < addresses.length := Nat.lt_trans hj hlt
      have hg : addresses.getD j "" = addresses[j] := by
        rw [List.getD_eq_getElem?_getD, List.getElem?_eq_getElem hjlt]
        rfl
      rw [hg]
      have := hmin j hj
      simpa using this
  · intro hnone hcg hor
    have hall : ∀ a ∈ addresses, hasTx a = true := by
      intro a ha
      have h2 := List.findIdx?_eq_none_iff.mp hnone a ha
      simpa using h2
    have hfields : refreshReceive addresses hasTx canGenerate device oldReceive =
        { addresses := addresses ++ deriveBatch device addresses.length
          receiveAddress := addresses.getD (addresses.length - 1) ""
          receiveAddressIndex := addresses.length - 1 } := by
      simp [refreshReceive, hnone, hcg, hor]
    refine ⟨hall, by rw [hfields], ?_, by rw [hfields]⟩
    simp [deriveBatch]

/-- Witness for the amended C6: with addresses `a0` (used) and `a1`
(unused) the refresh picks `a1`; with the single used address `addr0`
the refresh appends the derived batch. -/
theorem C6_receive_address_witness :
    ((refreshReceive ["a0", "a1"] (fun a => a == "a0") true
        (fun n => "n" ++ toString n) "a0").receiveAddress =
      ["a0", "a1"].getD 1 "") ∧
    ((refreshReceive ["addr0"] (fun _ => true) true
        (fun n => "new" ++ toString n) "addr0").addresses =
      ["addr0"] ++ deriveBatch (fun n => "new" ++ toString n) 1) := by
  constructor
  · exact (((C6_receive_address_amended ["a0", "a1"] (fun a => a == "a0") true
      (fun n => "n" ++ toString n) "a0").1) 1 (by decide)).1
  · exact (((C6_receive_address_amended ["addr0"] (fun _ => true) true
      (fun n => "new" ++ toString n) "addr0").2) (by decide) rfl (by decide)).2.1

/-! ## Claims C7 and C8: batch address derivation -/

/-- When the device answers every derivation, the sequential loop yields
exactly the addresses at the requested indices. -/
theorem deriveRangeE_ok (device : Nat → Except String String)
    (addrOf : Nat → String) (h : ∀ n, device n = .ok (addrOf n)) :
    ∀ (n start : Nat), deriveRangeE device start n =
      .ok ((List.range n).map (fun i => addrOf (start + i))) := by
  intro n
  induction n with
  | zero => intro start; simp [deriveRangeE]
  | succ m ih =>
    intro start
    simp only [deriveRangeE, h start, ih (start + 1)]
    congr 1
    rw [List.range_succ_eq_map]
    simp only [List.map_cons, List.map_map, Nat.add_zero]
    congr 1
    apply List.map_congr_left
    intro i _
    simp only [Function.comp_apply]
    congr 1
    omega

/-- A device failure anywhere inside the requested range makes the whole
sequential loop fail. -/
theorem deriveRangeE_error (device : Nat → Except String String) :
    ∀ (n start j : Nat), j < n → (∃ e, device (start + j) = .error e) →
      ∃ e, deriveRangeE device start n = .error e := by
  intro n
  induction n with
  | zero =>
    intro start j hj _
    omega
  | succ m ih =>
    intro start j hj hex
    obtain ⟨e, he⟩ := hex
    cases j with
    | zero =>
      simp only [Nat.add_zero] at he
      exact ⟨e, by simp [deriveRangeE, he]⟩
    | succ j2 =>
      cases hd : device start with
      | error e2 => exact ⟨e2, by simp [deriveRangeE, hd]⟩
      | ok a =>
        obtain ⟨e3, he3⟩ := ih (start + 1) j2 (by omega)
          ⟨e, by rw [← he]; congr 1; omega⟩
        exact ⟨e3, by simp [deriveRangeE, hd, he3]⟩

/-- C7: address derivation is append-only in fixed batches of five —
the initial derivation in `connect` produces exactly the device's
addresses at derivation indices 0..4, and a `generateMoreAddresses` call
on any existing list derives exactly five more starting at the current
count and appends them at the end, leaving every existing record in
place. -/
theorem C7_append_only_batches (device : Nat → Except String String)
    (addrOf : Nat → String) (addresses : List String)
    (h : ∀ n, device n = .ok (addrOf n)) :
    connectDeriveAddresses device = .ok ((List.range 5).map addrOf) ∧
    generateMoreAddresses device addresses =
      .ok (addresses ++
        (List.range 5).map (fun i => addrOf (addresses.length + i))) ∧
    ((List.range 5).map (fun i => addrOf (addresses.length + i))).length = 5 := by
  refine ⟨?_, ?_, by simp⟩
  · rw [connectDeriveAddresses, deriveRangeE_ok device addrOf h 5 0]
    simp
  · simp only [generateMoreAddresses,
      deriveRangeE_ok device addrOf h 5 addresses.length]

/-- Witness for C7 with a concrete always-succeeding device and a
two-address ledger. -/
theorem C7_append_only_witness :
    connectDeriveAddresses (fun n => .ok ("addr" ++ toString n)) =
      .ok ((List.range 5).map (fun n => "addr" ++ toString n)) ∧
    generateMoreAddresses (fun n => .ok ("addr" ++ toString n)) ["x0", "x1"] =
      .ok (["x0", "x1"] ++
        (List.range 5).map (fun i =>
          "addr" ++ toString ((["x0", "x1"] : List String).length + i))) ∧
    ((List.range 5).map (fun i =>
      "addr" ++ toString ((["x0", "x1"] : List String).length + i))).length = 5 :=
  C7_append_only_batches (fun n => .ok ("addr" ++ toString n))
    (fun n => "addr" ++ toString n) ["x0", "x1"] (fun _ => rfl)

/-- C8: batch derivation is all-or-nothing — if the device fails on any
of the five derivations of a batch, the whole call fails (surfacing the
error to the caller) and the address list held in state is exactly what
it was before the call. -/
theorem C8_atomic_batch_derivation (device : Nat → Except String String)
    (addresses : List String)
    (hfail : ∃ j, j < 5 ∧ ∃ e, device (addresses.length + j) = .error e) :
    (∃ e, generateMoreAddresses device addresses = .error e) ∧
    addressesAfterGenerate device addresses = addresses := by
  obtain ⟨j, hj, he⟩ := hfail
  obtain ⟨e, herr⟩ := deriveRangeE_error device 5 addresses.length j hj he
  have hgen : generateMoreAddresses device addresses = .error e := by
    simp [generateMoreAddresses, herr]
  exact ⟨⟨e, hgen⟩, by simp [addressesAfterGenerate, hgen]⟩

/-- Witness for C8: the device fails on the first derivation of the new
batch (index 2 for a two-address ledger) and the address list is
unchanged. -/
theorem C8_atomic_batch_witness :
    (∃ j, j < 5 ∧ ∃ e,
      (fun n => if n == 2 then Except.error "disconnected"
        else Except.ok ("a" ++ toString n)) ((["x0", "x1"] : List String).length + j) =
        .error e) ∧
    (∃ e, generateMoreAddresses
        (fun n => if n == 2 then Except.error "disconnected"
          else Except.ok ("a" ++ toString n)) ["x0", "x1"] = .error e) ∧
    addressesAfterGenerate
        (fun n => if n == 2 then Except.error "disconnected"
          else Except.ok ("a" ++ toString n)) ["x0", "x1"] = ["x0", "x1"] := by
  refine ⟨⟨0, by omega, "disconnected", rfl⟩, ?_⟩
  exact C8_atomic_batch_derivation
    (fun n => if n == 2 then Except.error "disconnected"
      else Except.ok ("a" ++ toString n)) ["x0", "x1"]
    ⟨0, by omega, "disconnected", rfl⟩

/-! ## Claim C9: sendBitcoin is a pure simulation -/

/-- C9: whenever the status is connected, a transport is held, and the
amount does not exceed the balance, `sendBitcoin` succeeds, decrements
the balance by exactly the amount, prepends exactly one pending sent
transaction, returns a string beginning with `tx_hash_simulated_`, and
performs no UTXO fetch, no device signing request and no broadcast
request — its only effects are the toast and the three-second wait. -/
theorem C9_sendBitcoin_simulation (s : LedgerState) (amount : ℚ)
    (toAddress : String) (now : Nat) (rand : String)
    (hconn : s.status = .connected) (htr : s.hasTransport = true)
    (hamt : amount ≤ s.btcBalance) :
    ∃ s2 fx, sendBitcoin s amount toAddress now rand =
        .ok (s2, "tx_hash_simulated_" ++ rand, fx) ∧
      s2.btcBalance = s.btcBalance - amount ∧
      s2.transactions =
        { id := "tx-" ++ toString now
          type := .sent
          amount := amount
          date := now
          address := toAddress
          status := .pending } :: s.transactions ∧
      s2.status = s.status ∧
      s2.hasTransport = s.hasTransport ∧
      fx = [.toastShown "Confirm on Device", .waitMs 3000] ∧
      SendEffect.utxoApiFetch ∉ fx ∧
      SendEffect.deviceSignRequest ∉ fx ∧
      SendEffect.broadcastApiRequest ∉ fx ∧
      (∃ suffix, "tx_hash_simulated_" ++ rand = "tx_hash_simulated_" ++ suffix) := by
  have hguard : ¬ (¬ s.hasTransport ∨ s.status ≠ LedgerStatus.connected) := by
    rw [htr, hconn]
    simp
  have hbal : ¬ s.btcBalance < amount := not_lt.mpr hamt
  refine ⟨{ s with
      btcBalance := s.btcBalance - amount
      transactions :=
        { id := "tx-" ++ toString now
          type := .sent
          amount := amount
          date := now
          address := toAddress
          status := .pending } :: s.transactions },
    [.toastShown "Confirm on Device", .waitMs 3000],
    ?_, rfl, rfl, rfl, rfl, rfl, ?_, ?_, ?_, ⟨rand, rfl⟩⟩
  · rw [sendBitcoin, if_neg hguard, if_neg hbal]
  · simp
  · simp
  · simp

/-- Witness for C9: a connected state with balance 5 BTC sending 2 BTC. -/
theorem C9_sendBitcoin_witness :
    (LedgerState.mk .connected true 5 []).status = .connected ∧
    (LedgerState.mk .connected true 5 []).hasTransport = true ∧
    (2 : ℚ) ≤ (LedgerState.mk .connected true 5 []).btcBalance ∧
    ∃ s2 fx, sendBitcoin (LedgerState.mk .connected true 5 []) 2 "dest" 1700000000 "abc" =
        .ok (s2, "tx_hash_simulated_" ++ "abc", fx) ∧
      s2.btcBalance = (LedgerState.mk .connected true 5 []).btcBalance - 2 ∧
      s2.transactions =
        { id := "tx-" ++ toString 1700000000
          type := .sent
          amount := 2
          date := 1700000000
          address := "dest"
          status := .pending } :: (LedgerState.mk .connected true 5 []).transactions ∧
      s2.status = (LedgerState.mk .connected true 5 []).status ∧
      s2.hasTransport = (LedgerState.mk .connected true 5 []).hasTransport ∧
      fx = [.toastShown "Confirm on Device", .waitMs 3000] ∧
      SendEffect.utxoApiFetch ∉ fx ∧
      SendEffect.deviceSignRequest ∉ fx ∧
      SendEffect.broadcastApiRequest ∉ fx ∧
      (∃ suffix, "tx_hash_simulated_" ++ "abc" = "tx_hash_simulated_" ++ suffix) :=
  ⟨rfl, rfl, by norm_num,
    C9_sendBitcoin_simulation (LedgerState.mk .connected true 5 []) 2 "dest"
      1700000000 "abc" rfl rfl (by norm_num)⟩

/-! ## Claim C10: the address endpoint masks upstream failures -/

/-- C10: whenever the upstream explorer request throws or the address
response is non-OK, the /api/address/:address endpoint replies HTTP 200
with body balance 0 and no transactions — byte-for-byte the reply it
gives for an address with all-zero chain statistics and no history, so
the failure is indistinguishable to the client from a never-used
address. -/
theorem C10_address_failure_masking (address : String)
    (addrRes : FetchOutcome AddressChainData)
    (txsRes : FetchOutcome (List ExplorerTx)) (now : Nat)
    (h : addrRes = .threw ∨ addrRes = .notOk ∨ txsRes = .threw) :
    getAddressHandler address addrRes txsRes now = emptyAddressResponse ∧
    (getAddressHandler address addrRes txsRes now).httpStatus = 200 ∧
    (getAddressHandler address addrRes txsRes now).balance = 0 ∧
    (getAddressHandler address addrRes txsRes now).transactions = [] ∧
    getAddressHandler address addrRes txsRes now =
      getAddressHandler address (.ok ⟨0, 0, 0, 0⟩) (.ok []) now := by
  have hfresh : getAddressHandler address (.ok ⟨0, 0, 0, 0⟩) (.ok []) now =
      emptyAddressResponse := by
    simp only [getAddressHandler, emptyAddressResponse]
    norm_num
  have hfail : getAddressHandler address addrRes txsRes now =
      emptyAddressResponse := by
    rcases h with h | h | h
    · subst h
      cases txsRes <;> rfl
    · subst h
      cases txsRes <;> rfl
    · subst h
      cases addrRes <;> rfl
  refine ⟨hfail, ?_, ?_, ?_, ?_⟩
  · rw [hfail]
    rfl
  · rw [hfail]
    rfl
  · rw [hfail]
    rfl
  · rw [hfail, hfresh]

/-- Witness for C10: a non-OK upstream address response for a concrete
address. -/
theorem C10_address_failure_witness :
    ((FetchOutcome.notOk : FetchOutcome AddressChainData) = .threw ∨
      (FetchOutcome.notOk : FetchOutcome AddressChainData) = .notOk ∨
      (FetchOutcome.ok ([] : List ExplorerTx)) = .threw) ∧
    (getAddressHandler "bc1qexample" .notOk (.ok []) 42 = emptyAddressResponse ∧
      (getAddressHandler "bc1qexample" .notOk (.ok []) 42).httpStatus = 200 ∧
      (getAddressHandler "bc1qexample" .notOk (.ok []) 42).balance = 0 ∧
      (getAddressHandler "bc1qexample" .notOk (.ok []) 42).transactions = [] ∧
      getAddressHandler "bc1qexample" .notOk (.ok []) 42 =
        getAddressHandler "bc1qexample" (.ok ⟨0, 0, 0, 0⟩) (.ok []) 42) :=
  ⟨Or.inr (Or.inl rfl),
    C10_address_failure_masking "bc1qexample" .notOk (.ok []) 42
      (Or.inr (Or.inl rfl))⟩

end BtcWallet
